import Mathlib

/-!
# Verification of the price-token templating engine (`src/lib/priceTokens.ts`)

Shallow embedding of the dynamic price-token system: a quote's `ask` price
and the configuration values are embedded as rationals (the idealisation of
the JavaScript number arithmetic on the valid-quote path), strings as
`List Char`.  `Math.round(x)` is `⌊x + 1/2⌋`; the `Intl.NumberFormat`
`en-US` / USD / 0-fraction-digit formatter rounds half away from zero and
renders the integer with `,` grouping and a `$` symbol, negatives with a
leading `-`.  The regex-driven scanner of `replaceTokens` / `hasTokens` /
`findTokens` is embedded as a left-to-right scan over the character list,
trying the eight literal token spellings at each position (at most one can
match at a position, mirroring the alternation in `TOKEN_PATTERN`).
-/

/-- The quote record (`ProductSpotSummary`): the engine reads only `ask`. -/
structure ProductSpotSummary where
  ask : ℚ
deriving DecidableEq

/-- `PriceTokenConfig`: both fields optional, defaults merged in by
`resolveToken` (`{ ...DEFAULT_CONFIG, ...config }`). -/
structure PriceTokenConfig where
  premiumBandPercent : Option ℚ := none
  roundingIncrement : Option ℚ := none
deriving DecidableEq

/-- `DEFAULT_CONFIG = { premiumBandPercent: 5, roundingIncrement: 100 }`. -/
def DEFAULT_CONFIG : ℚ × ℚ := (5, 100)

/-- The premium-band percentage after merging with the default. -/
def resolvedBand (config : PriceTokenConfig) : ℚ :=
  config.premiumBandPercent.getD DEFAULT_CONFIG.1

/-- The rounding increment after merging with the default. -/
def resolvedIncrement (config : PriceTokenConfig) : ℚ :=
  config.roundingIncrement.getD DEFAULT_CONFIG.2

/-- `roundToNearest(value, increment) = Math.round(value / increment) * increment`;
JavaScript `Math.round x = ⌊x + 1/2⌋` on finite arguments. -/
def roundToNearest (value increment : ℚ) : ℚ :=
  ((⌊value / increment + 1 / 2⌋ : ℤ) : ℚ) * increment

/-- The integer the `Intl.NumberFormat` 0-fraction-digit formatter renders:
half-away-from-zero rounding (ECMA-402 `halfExpand`). -/
def intlRound (value : ℚ) : ℤ :=
  if value < 0 then -⌊-value + 1 / 2⌋ else ⌊value + 1 / 2⌋

/-- One decimal digit as a character (`'*'` past 9, never reached for
digits produced by `% 10`). -/
def digitCh (d : Nat) : Char :=
  if d = 0 then '0' else if d = 1 then '1' else if d = 2 then '2'
  else if d = 3 then '3' else if d = 4 then '4' else if d = 5 then '5'
  else if d = 6 then '6' else if d = 7 then '7' else if d = 8 then '8'
  else if d = 9 then '9' else '*'

/-- Little-endian base-10 digits of `n`, with fuel (fuel `n` suffices). -/
def natDigitsLE : Nat → Nat → List Nat
  | 0, _ => []
  | fuel + 1, n => if n = 0 then [] else n % 10 :: natDigitsLE fuel (n / 10)

/-- Insert a `,` after every three digits of a little-endian digit list
(the `en-US` grouping separator, still little-endian). -/
def commasLE : List Nat → List Char
  | a :: b :: c :: d :: rest => digitCh a :: digitCh b :: digitCh c :: ',' :: commasLE (d :: rest)
  | l => l.map digitCh

/-- The grouped decimal rendering of a natural number, e.g. `30,000`. -/
def groupedDigits (n : Nat) : List Char :=
  if n = 0 then ['0'] else (commasLE (natDigitsLE n n)).reverse

/-- `Intl.NumberFormat("en-US", { style: "currency", currency: "USD", ... })`
applied to the integer `n`: `$` plus grouped digits, negatives as `-$…`. -/
def formatUSD (n : ℤ) : List Char :=
  if n < 0 then '-' :: '$' :: groupedDigits n.natAbs
  else '$' :: groupedDigits n.natAbs

/-- `formatPrice(value, prefix)`: the Intl currency rendering of `value`
(0 fraction digits) with `prefix` prepended. -/
def formatPrice (value : ℚ) (pfx : List Char) : List Char :=
  pfx ++ formatUSD (intlRound value)

/-- `String.prototype.replace` with a plain-string pattern: replace the
leftmost occurrence of `pat` (only) by `rep`. -/
def replaceFirst (pat rep : List Char) : List Char → List Char
  | [] => if pat.isEmpty then rep else []
  | c :: rest =>
    if pat.isPrefixOf (c :: rest) then rep ++ (c :: rest).drop pat.length
    else c :: replaceFirst pat rep rest

/-- The eight token kinds (`PriceTokenType`). -/
inductive PriceTokenType
  | CAPITAL_REQUIREMENT
  | CAPITAL_REQUIREMENT_RANGE
  | CAPITAL_REQUIREMENT_PLUS
  | LIQUIDITY_THRESHOLD
  | BAR_PRICE
  | SPOT_PRICE
  | ONE_OZ_BAR_RANGE
  | HUNDRED_OZ_BAR_RANGE
deriving DecidableEq

/-- The identifier of a token kind, spelled as in the source enumeration. -/
def tokenName : PriceTokenType → String
  | .CAPITAL_REQUIREMENT => "CAPITAL_REQUIREMENT"
  | .CAPITAL_REQUIREMENT_RANGE => "CAPITAL_REQUIREMENT_RANGE"
  | .CAPITAL_REQUIREMENT_PLUS => "CAPITAL_REQUIREMENT_PLUS"
  | .LIQUIDITY_THRESHOLD => "LIQUIDITY_THRESHOLD"
  | .BAR_PRICE => "BAR_PRICE"
  | .SPOT_PRICE => "SPOT_PRICE"
  | .ONE_OZ_BAR_RANGE => "ONE_OZ_BAR_RANGE"
  | .HUNDRED_OZ_BAR_RANGE => "HUNDRED_OZ_BAR_RANGE"

/-- The literal text of a well-formed occurrence of kind `t`:
a double-brace pair around the bare identifier. -/
def tokenSource (t : PriceTokenType) : List Char :=
  '\x7b' :: '\x7b' :: (tokenName t).toList ++ ['\x7d', '\x7d']

/-- The alternation order of `TOKEN_PATTERN`. -/
def tokenList : List PriceTokenType :=
  [.CAPITAL_REQUIREMENT, .CAPITAL_REQUIREMENT_RANGE, .CAPITAL_REQUIREMENT_PLUS,
   .LIQUIDITY_THRESHOLD, .BAR_PRICE, .SPOT_PRICE, .ONE_OZ_BAR_RANGE, .HUNDRED_OZ_BAR_RANGE]

/-- `estimatedSpotPerOz = askPrice / 1000 / 1.01`. -/
def estimatedSpotPerOz (askPrice : ℚ) : ℚ := askPrice / 1000 / 1.01

/-- Low bound of `CAPITAL_REQUIREMENT_RANGE`. -/
def capRangeLow (askPrice band incr : ℚ) : ℚ :=
  roundToNearest (askPrice * (1 - band / 100)) incr

/-- High bound of `CAPITAL_REQUIREMENT_RANGE`. -/
def capRangeHigh (askPrice band incr : ℚ) : ℚ :=
  roundToNearest (askPrice * (1 + band / 100)) incr

/-- Low bound of `ONE_OZ_BAR_RANGE` (10% premium over the derived spot). -/
def oneOzLow (askPrice : ℚ) : ℚ :=
  roundToNearest (estimatedSpotPerOz askPrice * 1.10) 1

/-- High bound of `ONE_OZ_BAR_RANGE` (33% premium over the derived spot). -/
def oneOzHigh (askPrice : ℚ) : ℚ :=
  roundToNearest (estimatedSpotPerOz askPrice * 1.33) 1

/-- Low bound of `HUNDRED_OZ_BAR_RANGE` (2% premium, scaled ×100). -/
def hundredOzLow (askPrice : ℚ) : ℚ :=
  roundToNearest (estimatedSpotPerOz askPrice * 100 * 1.02) 100

/-- High bound of `HUNDRED_OZ_BAR_RANGE` (4% premium, scaled ×100). -/
def hundredOzHigh (askPrice : ℚ) : ℚ :=
  roundToNearest (estimatedSpotPerOz askPrice * 100 * 1.04) 100

/-- `resolveToken(tokenType, priceData, config)`. -/
def resolveToken (tokenType : PriceTokenType) (priceData : Option ProductSpotSummary)
    (config : PriceTokenConfig) : List Char :=
  let premiumBandPercent := resolvedBand config
  let roundingIncrement := resolvedIncrement config
  match priceData with
  | none => ("current market price").toList
  | some pd =>
    if pd.ask ≤ 0 then ("current market price").toList
    else
      let askPrice := pd.ask
      let roundedAsk := roundToNearest askPrice roundingIncrement
      match tokenType with
      | .CAPITAL_REQUIREMENT => formatPrice roundedAsk ['~']
      | .CAPITAL_REQUIREMENT_RANGE =>
          formatPrice (capRangeLow askPrice premiumBandPercent roundingIncrement) ['~']
            ++ '–' :: replaceFirst ['~'] []
              (formatPrice (capRangeHigh askPrice premiumBandPercent roundingIncrement) ['~'])
      | .CAPITAL_REQUIREMENT_PLUS => formatPrice roundedAsk ['~'] ++ ['+']
      | .LIQUIDITY_THRESHOLD => formatPrice roundedAsk ['~'] ++ ['+']
      | .BAR_PRICE => formatPrice roundedAsk []
      | .SPOT_PRICE => formatPrice (roundToNearest (estimatedSpotPerOz askPrice) 1) ['~']
      | .ONE_OZ_BAR_RANGE =>
          formatPrice (oneOzLow askPrice) []
            ++ '–' :: replaceFirst ['$'] [] (formatPrice (oneOzHigh askPrice) [])
      | .HUNDRED_OZ_BAR_RANGE =>
          formatPrice (hundredOzLow askPrice) []
            ++ '–' :: replaceFirst ['$'] [] (formatPrice (hundredOzHigh askPrice) [])

/-- The scanner's step: does a well-formed token occurrence begin at the
head of `s`?  (`find?` over the alternation; at most one spelling can match
at a given position, see `matchTokenAt_unique`.) -/
def matchTokenAt (s : List Char) : Option PriceTokenType :=
  tokenList.find? fun t => (tokenSource t).isPrefixOf s

/-- The `text.replace(TOKEN_PATTERN, …)` scan with fuel: at each position
try to match a token; on a match emit its resolved value and resume after
the occurrence, otherwise keep the character. -/
def replaceTokensAux (priceData : Option ProductSpotSummary) (config : PriceTokenConfig) :
    Nat → List Char → List Char
  | 0, s => s
  | _ + 1, [] => []
  | fuel + 1, c :: rest =>
    match matchTokenAt (c :: rest) with
    | some t =>
        resolveToken t priceData config
          ++ replaceTokensAux priceData config fuel (rest.drop ((tokenSource t).length - 1))
    | none => c :: replaceTokensAux priceData config fuel rest

/-- `replaceTokens(text, priceData, config)`. -/
def replaceTokens (text : List Char) (priceData : Option ProductSpotSummary)
    (config : PriceTokenConfig) : List Char :=
  replaceTokensAux priceData config text.length text

/-- `hasTokens(text) = TOKEN_PATTERN.test(text)`: a match exists at some
position of the text. -/
def hasTokens : List Char → Bool
  | [] => false
  | c :: rest => (matchTokenAt (c :: rest)).isSome || hasTokens rest

/-- The `pattern.exec` loop of `findTokens`, with fuel: collect matched
kinds left to right, resuming after each match. -/
def findTokensAux : Nat → List Char → List PriceTokenType
  | 0, _ => []
  | _ + 1, [] => []
  | fuel + 1, c :: rest =>
    match matchTokenAt (c :: rest) with
    | some t => t :: findTokensAux fuel (rest.drop ((tokenSource t).length - 1))
    | none => findTokensAux fuel rest

/-- `findTokens(text)`. -/
def findTokens (text : List Char) : List PriceTokenType :=
  findTokensAux text.length text

/-- A segment of the scanner's decomposition of the input: a literal
character left untouched, or a well-formed token occurrence. -/
inductive Seg
  | lit (c : Char)
  | tok (t : PriceTokenType)
deriving DecidableEq

/-- The source text a segment stands for. -/
def segSource : Seg → List Char
  | .lit c => [c]
  | .tok t => tokenSource t

/-- The output text a segment contributes to `replaceTokens`. -/
def segRender (priceData : Option ProductSpotSummary) (config : PriceTokenConfig) :
    Seg → List Char
  | .lit c => [c]
  | .tok t => resolveToken t priceData config

/-- The kind of a token segment, `none` for a literal. -/
def segToken : Seg → Option PriceTokenType
  | .lit _ => none
  | .tok t => some t

/-- The scanner's decomposition of the input into segments, with fuel
(same scan as `replaceTokensAux`). -/
def tokenizeAux : Nat → List Char → List Seg
  | 0, s => s.map Seg.lit
  | _ + 1, [] => []
  | fuel + 1, c :: rest =>
    match matchTokenAt (c :: rest) with
    | some t => Seg.tok t :: tokenizeAux fuel (rest.drop ((tokenSource t).length - 1))
    | none => Seg.lit c :: tokenizeAux fuel rest

/-- The scanner's decomposition of a text into literal and token segments. -/
def tokenize (text : List Char) : List Seg :=
  tokenizeAux text.length text

/-- A JavaScript number as the `ask` field can hold it: a finite value
(embedded as an exact rational) or one of the non-finite specials. -/
inductive JsNumber
  | finite (q : ℚ)
  | nan
  | posInf
  | negInf
deriving DecidableEq

/-- The JavaScript comparison `x <= 0` (IEEE semantics on the specials:
`NaN <= 0` and `Infinity <= 0` are false, `-Infinity <= 0` is true). -/
def jsLeZero : JsNumber → Bool
  | .finite q => decide (q ≤ 0)
  | .nan => false
  | .posInf => false
  | .negInf => true

/-- The guard of `resolveToken` — `!priceData || priceData.ask <= 0` — over
a quote whose `ask` is an arbitrary JavaScript number: `true` exactly when
the fallback branch is taken, `false` when the ask flows into arithmetic. -/
def quoteGuardTriggered (priceData : Option JsNumber) : Bool :=
  match priceData with
  | none => true
  | some ask => jsLeZero ask

/-- A JavaScript number that is not finite. -/
def JsNumber.nonFinite : JsNumber → Bool
  | .finite _ => false
  | _ => true

/-! ## Arithmetic facts about `roundToNearest` -/

/-- Unfolding equation for `roundToNearest`. -/
theorem roundToNearest_eq (value increment : ℚ) :
    roundToNearest value increment = ((⌊value / increment + 1 / 2⌋ : ℤ) : ℚ) * increment := rfl

/-- The rounded value sits within half an increment of the input. -/
theorem roundToNearest_abs_le (value increment : ℚ) (hinc : 0 < increment) :
    |roundToNearest value increment - value| ≤ increment / 2 := by
  have hne : increment ≠ 0 := ne_of_gt hinc
  have hm1 : ((⌊value / increment + 1 / 2⌋ : ℤ) : ℚ) ≤ value / increment + 1 / 2 :=
    Int.floor_le _
  have hm2 : value / increment + 1 / 2 < ((⌊value / increment + 1 / 2⌋ : ℤ) : ℚ) + 1 :=
    Int.lt_floor_add_one _
  have hdiff : roundToNearest value increment - value
      = (((⌊value / increment + 1 / 2⌋ : ℤ) : ℚ) - value / increment) * increment := by
    rw [roundToNearest_eq]
    field_simp
  rw [hdiff, abs_mul, abs_of_pos hinc]
  have habs : |((⌊value / increment + 1 / 2⌋ : ℤ) : ℚ) - value / increment| ≤ 1 / 2 :=
    abs_le.mpr ⟨by linarith, by linarith⟩
  calc |((⌊value / increment + 1 / 2⌋ : ℤ) : ℚ) - value / increment| * increment
      ≤ 1 / 2 * increment := mul_le_mul_of_nonneg_right habs (le_of_lt hinc)
    _ = increment / 2 := by ring

/-- Any other multiple of the increment is at least half an increment away. -/
theorem other_multiple_far (value increment : ℚ) (hinc : 0 < increment) (k : ℤ)
    (hk : k ≠ ⌊value / increment + 1 / 2⌋) :
    increment / 2 ≤ |(k : ℚ) * increment - value| := by
  have hne : increment ≠ 0 := ne_of_gt hinc
  have hm1 : ((⌊value / increment + 1 / 2⌋ : ℤ) : ℚ) ≤ value / increment + 1 / 2 :=
    Int.floor_le _
  have hm2 : value / increment + 1 / 2 < ((⌊value / increment + 1 / 2⌋ : ℤ) : ℚ) + 1 :=
    Int.lt_floor_add_one _
  have hdiff : (k : ℚ) * increment - value = ((k : ℚ) - value / increment) * increment := by
    field_simp
  rw [hdiff, abs_mul, abs_of_pos hinc]
  have hhalf : 1 / 2 ≤ |(k : ℚ) - value / increment| := by
    rcases lt_or_gt_of_ne hk with hlt | hgt
    · have : k + 1 ≤ ⌊value / increment + 1 / 2⌋ := hlt
      have hc : (k : ℚ) + 1 ≤ ((⌊value / increment + 1 / 2⌋ : ℤ) : ℚ) := by exact_mod_cast this
      exact le_abs.mpr (Or.inr (by linarith))
    · have : ⌊value / increment + 1 / 2⌋ + 1 ≤ k := hgt
      have hc : ((⌊value / increment + 1 / 2⌋ : ℤ) : ℚ) + 1 ≤ (k : ℚ) := by exact_mod_cast this
      exact le_abs.mpr (Or.inl (by linarith))
  calc increment / 2 = 1 / 2 * increment := by ring
    _ ≤ |(k : ℚ) - value / increment| * increment :=
        mul_le_mul_of_nonneg_right hhalf (le_of_lt hinc)

/-- C4 — `roundToNearest(value, increment)` returns the multiple of
`increment` nearest to `value`, and a value exactly halfway between two
consecutive multiples rounds to the larger one (round-half-up). -/
theorem roundToNearest_nearest_half_up (value increment : ℚ) (hinc : 0 < increment) :
    (∃ k : ℤ, roundToNearest value increment = (k : ℚ) * increment)
    ∧ (∀ k : ℤ, |roundToNearest value increment - value| ≤ |(k : ℚ) * increment - value|)
    ∧ (∀ k : ℤ, value = (k : ℚ) * increment + increment / 2 →
        roundToNearest value increment = ((k : ℚ) + 1) * increment) := by
  have hne : increment ≠ 0 := ne_of_gt hinc
  refine ⟨⟨⌊value / increment + 1 / 2⌋, roundToNearest_eq value increment⟩, ?_, ?_⟩
  · intro k
    rcases eq_or_ne k ⌊value / increment + 1 / 2⌋ with rfl | hk
    · rw [roundToNearest_eq]
    · exact le_trans (roundToNearest_abs_le value increment hinc)
        (other_multiple_far value increment hinc k hk)
  · intro k hval
    have hx : value / increment + 1 / 2 = ((k + 1 : ℤ) : ℚ) := by
      rw [hval]
      push_cast
      field_simp
      ring
    rw [roundToNearest_eq, hx, Int.floor_intCast]
    push_cast
    ring

/-- Witness for C4 at `value = 250`, `increment = 100` (a halfway point:
`250` rounds up to `300`). -/
theorem roundToNearest_nearest_half_up_witness :
    (∃ k : ℤ, roundToNearest 250 100 = (k : ℚ) * 100)
    ∧ (∀ k : ℤ, |roundToNearest 250 100 - 250| ≤ |(k : ℚ) * 100 - 250|)
    ∧ (∀ k : ℤ, (250 : ℚ) = (k : ℚ) * 100 + 100 / 2 →
        roundToNearest 250 100 = ((k : ℚ) + 1) * 100) :=
  roundToNearest_nearest_half_up 250 100 (by norm_num)

/-- `roundToNearest` is monotone in the value for a positive increment. -/
theorem roundToNearest_mono {v w increment : ℚ} (hinc : 0 < increment) (h : v ≤ w) :
    roundToNearest v increment ≤ roundToNearest w increment := by
  rw [roundToNearest_eq, roundToNearest_eq]
  have hdiv : v / increment ≤ w / increment :=
    (div_le_div_iff_of_pos_right hinc).mpr h
  have := Int.floor_mono (add_le_add_right hdiv (1 / 2 : ℚ))
  exact mul_le_mul_of_nonneg_right (by exact_mod_cast this) (le_of_lt hinc)

/-- `roundToNearest` of a nonnegative value is nonnegative. -/
theorem roundToNearest_nonneg {v increment : ℚ} (hinc : 0 < increment) (hv : 0 ≤ v) :
    0 ≤ roundToNearest v increment := by
  rw [roundToNearest_eq]
  have h0 : (0 : ℤ) ≤ ⌊v / increment + 1 / 2⌋ := by
    apply Int.floor_nonneg.mpr
    have : 0 ≤ v / increment := div_nonneg hv (le_of_lt hinc)
    linarith
  exact mul_nonneg (by exact_mod_cast h0) (le_of_lt hinc)

/-! ## C2 and C3: the unavailable-quote guard -/

/-- C2 — for every config and every token kind, a missing quote or one with
`ask ≤ 0` resolves to the fixed fallback phrase "current market price"
(the guard short-circuits before any arithmetic; the function is total, so
no exception is possible). -/
theorem resolveToken_unavailable_fallback (t : PriceTokenType) (config : PriceTokenConfig) :
    resolveToken t none config = ("current market price").toList
    ∧ ∀ pd : ProductSpotSummary, pd.ask ≤ 0 →
        resolveToken t (some pd) config = ("current market price").toList := by
  refine ⟨rfl, fun pd h => ?_⟩
  simp [resolveToken, if_pos h]

/-- Witness for C2: `ask = 0` with the defaults. -/
theorem resolveToken_unavailable_fallback_witness :
    resolveToken .BAR_PRICE (some ⟨0⟩) {} = ("current market price").toList :=
  (resolveToken_unavailable_fallback .BAR_PRICE {}).2 ⟨0⟩ le_rfl

/-- C3 (code behaviour at the failing inputs) — the guard
`!priceData || priceData.ask <= 0` does NOT fire for `ask = NaN` or
`ask = +Infinity` (IEEE comparisons with `NaN`/`Infinity` are false), so
those non-finite asks flow into the derivation arithmetic; only
`-Infinity` is caught. -/
theorem quoteGuard_misses_nan_and_posInf :
    quoteGuardTriggered (some JsNumber.nan) = false
    ∧ quoteGuardTriggered (some JsNumber.posInf) = false
    ∧ quoteGuardTriggered (some JsNumber.negInf) = true :=
  ⟨rfl, rfl, rfl⟩

/-! ## C5: the `ask = 30000` scenario with the default config -/

/-- C5 — with `ask = 30000` and the defaults (band 5%, increment 100):
capital requirement `~$30,000`, range `~$28,500–$31,500`, bar price
`$30,000`, spot price `~$30`. -/
theorem resolveToken_scenario_30000 :
    resolveToken .CAPITAL_REQUIREMENT (some ⟨30000⟩) {} = ("~$30,000").toList
    ∧ resolveToken .CAPITAL_REQUIREMENT_RANGE (some ⟨30000⟩) {} = ("~$28,500–$31,500").toList
    ∧ resolveToken .BAR_PRICE (some ⟨30000⟩) {} = ("$30,000").toList
    ∧ resolveToken .SPOT_PRICE (some ⟨30000⟩) {} = ("~$30").toList := by
  have hask : ¬((⟨30000⟩ : ProductSpotSummary).ask ≤ 0) := by norm_num
  have hra : roundToNearest (30000 : ℚ) (resolvedIncrement {}) = 30000 := by
    norm_num [roundToNearest, resolvedIncrement, DEFAULT_CONFIG]
  have hlo : capRangeLow (30000 : ℚ) (resolvedBand {}) (resolvedIncrement {}) = 28500 := by
    norm_num [capRangeLow, roundToNearest, resolvedBand, resolvedIncrement, DEFAULT_CONFIG]
  have hhi : capRangeHigh (30000 : ℚ) (resolvedBand {}) (resolvedIncrement {}) = 31500 := by
    norm_num [capRangeHigh, roundToNearest, resolvedBand, resolvedIncrement, DEFAULT_CONFIG]
  have hsp : roundToNearest (estimatedSpotPerOz (30000 : ℚ)) 1 = 30 := by
    norm_num [roundToNearest, estimatedSpotPerOz]
  have i1 : intlRound (30000 : ℚ) = 30000 := by norm_num [intlRound]
  have i2 : intlRound (28500 : ℚ) = 28500 := by norm_num [intlRound]
  have i3 : intlRound (31500 : ℚ) = 31500 := by norm_num [intlRound]
  have i4 : intlRound (30 : ℚ) = 30 := by norm_num [intlRound]
  refine ⟨?_, ?_, ?_, ?_⟩
  · simp only [resolveToken, hask, if_neg, hra, formatPrice, i1]
    decide
  · simp only [resolveToken, hask, if_neg, hlo, hhi, formatPrice, i2, i3]
    decide
  · simp only [resolveToken, hask, if_neg, hra, formatPrice, i1]
    decide
  · simp only [resolveToken, hask, if_neg, hsp, formatPrice, i4]
    decide

/-! ## C6: range tokens satisfy low ≤ high -/

/-- C6 — for every quote with `ask > 0` and every config with positive
band and increment, each of the three range tokens computes a low bound
that is at most its high bound. -/
theorem range_tokens_low_le_high (pd : ProductSpotSummary) (config : PriceTokenConfig)
    (hq : 0 < pd.ask) (hb : 0 < resolvedBand config) (hi : 0 < resolvedIncrement config) :
    capRangeLow pd.ask (resolvedBand config) (resolvedIncrement config)
      ≤ capRangeHigh pd.ask (resolvedBand config) (resolvedIncrement config)
    ∧ oneOzLow pd.ask ≤ oneOzHigh pd.ask
    ∧ hundredOzLow pd.ask ≤ hundredOzHigh pd.ask := by
  have hspot : 0 ≤ estimatedSpotPerOz pd.ask := by
    unfold estimatedSpotPerOz
    positivity
  refine ⟨?_, ?_, ?_⟩
  · apply roundToNearest_mono hi
    apply mul_le_mul_of_nonneg_left _ (le_of_lt hq)
    linarith
  · apply roundToNearest_mono one_pos
    apply mul_le_mul_of_nonneg_left _ hspot
    norm_num
  · apply roundToNearest_mono (by norm_num : (0 : ℚ) < 100)
    apply mul_le_mul_of_nonneg_left _ (by positivity : (0 : ℚ) ≤ estimatedSpotPerOz pd.ask * 100)
    norm_num

/-- Witness for C6 at `ask = 30000` with the defaults. -/
theorem range_tokens_low_le_high_witness :
    capRangeLow (⟨30000⟩ : ProductSpotSummary).ask (resolvedBand {}) (resolvedIncrement {})
      ≤ capRangeHigh (⟨30000⟩ : ProductSpotSummary).ask (resolvedBand {}) (resolvedIncrement {})
    ∧ oneOzLow (⟨30000⟩ : ProductSpotSummary).ask ≤ oneOzHigh (⟨30000⟩ : ProductSpotSummary).ask
    ∧ hundredOzLow (⟨30000⟩ : ProductSpotSummary).ask
      ≤ hundredOzHigh (⟨30000⟩ : ProductSpotSummary).ask :=
  range_tokens_low_le_high ⟨30000⟩ {} (by norm_num)
    (by norm_num [resolvedBand, DEFAULT_CONFIG])
    (by norm_num [resolvedIncrement, DEFAULT_CONFIG])

/-! ## Character-level facts about the formatter -/

/-- Every digit character the formatter can produce. -/
theorem digitCh_mem (d : Nat) : digitCh d ∈ ("0123456789*").toList := by
  unfold digitCh
  repeat' split
  all_goals decide

/-- Characters of the comma-grouped digit list are commas or digit characters. -/
theorem commasLE_chars (l : List Nat) :
    ∀ ch ∈ commasLE l, ch = ',' ∨ ∃ d, ch = digitCh d := by
  induction l using commasLE.induct with
  | case1 a b c d rest ih =>
    intro ch hch
    simp only [commasLE, List.mem_cons] at hch
    rcases hch with rfl | rfl | rfl | rfl | h
    · exact Or.inr ⟨a, rfl⟩
    · exact Or.inr ⟨b, rfl⟩
    · exact Or.inr ⟨c, rfl⟩
    · exact Or.inl rfl
    · exact ih ch h
  | case2 l h1 =>
    intro ch hch
    rcases l with _ | ⟨a, _ | ⟨b, _ | ⟨c, _ | ⟨d, rest⟩⟩⟩⟩
    · simp [commasLE] at hch
    · simp only [commasLE, List.map, List.mem_cons, List.not_mem_nil, or_false] at hch
      exact Or.inr ⟨a, hch⟩
    · simp only [commasLE, List.map, List.mem_cons, List.not_mem_nil, or_false] at hch
      rcases hch with rfl | rfl
      · exact Or.inr ⟨a, rfl⟩
      · exact Or.inr ⟨b, rfl⟩
    · simp only [commasLE, List.map, List.mem_cons, List.not_mem_nil, or_false] at hch
      rcases hch with rfl | rfl | rfl
      · exact Or.inr ⟨a, rfl⟩
      · exact Or.inr ⟨b, rfl⟩
      · exact Or.inr ⟨c, rfl⟩
    · exact absurd rfl (h1 a b c d rest)

/-- Characters of `groupedDigits` are commas or digit characters. -/
theorem groupedDigits_chars (n : Nat) :
    ∀ ch ∈ groupedDigits n, ch = ',' ∨ ch ∈ ("0123456789*").toList := by
  intro ch hch
  unfold groupedDigits at hch
  split at hch
  · rcases List.mem_singleton.mp hch with rfl
    exact Or.inr (by decide)
  · rcases commasLE_chars _ ch (List.mem_reverse.mp hch) with h | ⟨d, rfl⟩
    · exact Or.inl h
    · exact Or.inr (digitCh_mem d)

/-- A comma or digit character is none of `{`, `}`, `$`. -/
theorem numChar_ne (ch : Char) (h : ch = ',' ∨ ch ∈ ("0123456789*").toList) :
    ch ≠ '\x7b' ∧ ch ≠ '\x7d' ∧ ch ≠ '$' := by
  rcases h with rfl | h
  · exact ⟨by decide, by decide, by decide⟩
  · fin_cases h <;> exact ⟨by decide, by decide, by decide⟩

/-- Characters of `formatUSD` are `-`, `$`, commas, or digits. -/
theorem formatUSD_chars (n : ℤ) :
    ∀ ch ∈ formatUSD n, ch = '-' ∨ ch = '$' ∨ (ch = ',' ∨ ch ∈ ("0123456789*").toList) := by
  intro ch hch
  unfold formatUSD at hch
  split at hch
  · rcases List.mem_cons.mp hch with rfl | hch
    · exact Or.inl rfl
    rcases List.mem_cons.mp hch with rfl | hch
    · exact Or.inr (Or.inl rfl)
    · exact Or.inr (Or.inr (groupedDigits_chars _ ch hch))
  · rcases List.mem_cons.mp hch with rfl | hch
    · exact Or.inr (Or.inl rfl)
    · exact Or.inr (Or.inr (groupedDigits_chars _ ch hch))

/-- Characters of `formatUSD` are never braces. -/
theorem formatUSD_brace_free (n : ℤ) :
    ∀ ch ∈ formatUSD n, ch ≠ '\x7b' ∧ ch ≠ '\x7d' := by
  intro ch hch
  rcases formatUSD_chars n ch hch with rfl | rfl | h
  · exact ⟨by decide, by decide⟩
  · exact ⟨by decide, by decide⟩
  · exact ⟨(numChar_ne ch h).1, (numChar_ne ch h).2.1⟩

/-- A character of `replaceFirst pat rep s` comes from `rep` or from `s`. -/
theorem replaceFirst_mem (pat rep : List Char) (s : List Char) :
    ∀ ch ∈ replaceFirst pat rep s, ch ∈ rep ∨ ch ∈ s := by
  induction s with
  | nil =>
    intro ch hch
    unfold replaceFirst at hch
    split at hch
    · exact Or.inl hch
    · simp at hch
  | cons c rest ih =>
    intro ch hch
    unfold replaceFirst at hch
    split at hch
    · rcases List.mem_append.mp hch with h | h
      · exact Or.inl h
      · exact Or.inr (List.mem_of_mem_drop h)
    · rcases List.mem_cons.mp hch with rfl | h
      · exact Or.inr (List.mem_cons_self _ _)
      · rcases ih ch h with h' | h'
        · exact Or.inl h'
        · exact Or.inr (List.mem_cons_of_mem _ h')

theorem fallback_brace_free :
    ∀ ch ∈ ("current market price").toList, ch ≠ '\x7b' ∧ ch ≠ '\x7d' := by
  decide

theorem resolveToken_brace_free (t : PriceTokenType) (pd : Option ProductSpotSummary)
    (config : PriceTokenConfig) :
    ∀ ch ∈ resolveToken t pd config, ch ≠ '\x7b' ∧ ch ≠ '\x7d' := by
  cases pd with
  | none => exact fun ch hch => fallback_brace_free ch hch
  | some q =>
    by_cases hq : q.ask ≤ 0
    · intro ch hch
      simp only [resolveToken, if_pos hq] at hch
      exact fallback_brace_free ch hch
    · intro ch hch
      simp only [resolveToken, if_neg hq, formatPrice] at hch
      cases t <;>
        simp only [List.mem_append, List.mem_cons, List.not_mem_nil, or_false,
          List.nil_append, List.mem_singleton] at hch
      ·
        rcases hch with rfl | hch
        · exact ⟨by decide, by decide⟩
        · exact formatUSD_brace_free _ ch hch
      ·
        rcases hch with (rfl | hch) | rfl | hch
        · exact ⟨by decide, by decide⟩
        · exact formatUSD_brace_free _ ch hch
        · exact ⟨by decide, by decide⟩
        · rcases replaceFirst_mem _ _ _ ch hch with h | h
          · simp at h
          · rcases List.mem_append.mp h with h' | h'
            · rcases List.mem_singleton.mp h' with rfl
              exact ⟨by decide, by decide⟩
            · exact formatUSD_brace_free _ ch h'
      ·
        rcases hch with (rfl | hch) | rfl
        · exact ⟨by decide, by decide⟩
        · exact formatUSD_brace_free _ ch hch
        · exact ⟨by decide, by decide⟩
      ·
        rcases hch with (rfl | hch) | rfl
        · exact ⟨by decide, by decide⟩
        · exact formatUSD_brace_free _ ch hch
        · exact ⟨by decide, by decide⟩
      ·
        exact formatUSD_brace_free _ ch hch
      ·
        rcases hch with rfl | hch
        · exact ⟨by decide, by decide⟩
        · exact formatUSD_brace_free _ ch hch
      ·
        rcases hch with hch | rfl | hch
        · exact formatUSD_brace_free _ ch hch
        · exact ⟨by decide, by decide⟩
        · rcases replaceFirst_mem _ _ _ ch hch with h | h
          · simp at h
          · exact formatUSD_brace_free _ ch h
      ·
        rcases hch with hch | rfl | hch
        · exact formatUSD_brace_free _ ch hch
        · exact ⟨by decide, by decide⟩
        · rcases replaceFirst_mem _ _ _ ch hch with h | h
          · simp at h
          · exact formatUSD_brace_free _ ch h

/-! ## C8: resolved values never contain unresolved brace syntax -/

/-- C8 — for every recognized token kind, every quote with `ask > 0` and
every config with positive band and increment, the resolved string contains
no `\x7b\x7b` and no `\x7d\x7d` substring (the function is total, so it
cannot throw). -/
theorem resolveToken_no_unresolved_braces (t : PriceTokenType) (pd : ProductSpotSummary)
    (config : PriceTokenConfig) (hq : 0 < pd.ask) (hb : 0 < resolvedBand config)
    (hi : 0 < resolvedIncrement config) :
    ¬ List.IsInfix ['\x7b', '\x7b'] (resolveToken t (some pd) config)
    ∧ ¬ List.IsInfix ['\x7d', '\x7d'] (resolveToken t (some pd) config) := by
  constructor
  · intro h
    have hmem : '\x7b' ∈ resolveToken t (some pd) config :=
      h.subset (by decide)
    exact (resolveToken_brace_free t (some pd) config _ hmem).1 rfl
  · intro h
    have hmem : '\x7d' ∈ resolveToken t (some pd) config :=
      h.subset (by decide)
    exact (resolveToken_brace_free t (some pd) config _ hmem).2 rfl

/-- Witness for C8 at `CAPITAL_REQUIREMENT`, `ask = 30000`, defaults. -/
theorem resolveToken_no_unresolved_braces_witness :
    ¬ List.IsInfix ['\x7b', '\x7b'] (resolveToken .CAPITAL_REQUIREMENT (some ⟨30000⟩) {})
    ∧ ¬ List.IsInfix ['\x7d', '\x7d'] (resolveToken .CAPITAL_REQUIREMENT (some ⟨30000⟩) {}) :=
  resolveToken_no_unresolved_braces .CAPITAL_REQUIREMENT ⟨30000⟩ {} (by norm_num)
    (by norm_num [resolvedBand, DEFAULT_CONFIG])
    (by norm_num [resolvedIncrement, DEFAULT_CONFIG])

/-! ## C10: the fallback phrase uniquely signals an unavailable quote -/

/-- The first character of `formatUSD`. -/
theorem formatUSD_cons (n : ℤ) :
    ∃ tail, formatUSD n = '$' :: tail ∨ formatUSD n = '-' :: '$' :: tail := by
  unfold formatUSD
  split
  · exact ⟨groupedDigits n.natAbs, Or.inr rfl⟩
  · exact ⟨groupedDigits n.natAbs, Or.inl rfl⟩

/-- On a valid quote every branch's output starts with `~`, `$` or `-`. -/
theorem resolveToken_valid_head (t : PriceTokenType) (q : ProductSpotSummary)
    (config : PriceTokenConfig) (hq : ¬ q.ask ≤ 0) :
    (resolveToken t (some q) config).head? = some '~'
    ∨ (resolveToken t (some q) config).head? = some '$'
    ∨ (resolveToken t (some q) config).head? = some '-' := by
  simp only [resolveToken, if_neg hq, formatPrice]
  cases t
  case CAPITAL_REQUIREMENT => exact Or.inl rfl
  case CAPITAL_REQUIREMENT_RANGE => exact Or.inl rfl
  case CAPITAL_REQUIREMENT_PLUS => exact Or.inl rfl
  case LIQUIDITY_THRESHOLD => exact Or.inl rfl
  case BAR_PRICE =>
    rcases formatUSD_cons (intlRound (roundToNearest q.ask (resolvedIncrement config)))
      with ⟨tail, h | h⟩
    · rw [List.nil_append, h]; exact Or.inr (Or.inl rfl)
    · rw [List.nil_append, h]; exact Or.inr (Or.inr rfl)
  case SPOT_PRICE => exact Or.inl rfl
  case ONE_OZ_BAR_RANGE =>
    rcases formatUSD_cons (intlRound (oneOzLow q.ask)) with ⟨tail, h | h⟩
    · rw [List.nil_append, h]; exact Or.inr (Or.inl rfl)
    · rw [List.nil_append, h]; exact Or.inr (Or.inr rfl)
  case HUNDRED_OZ_BAR_RANGE =>
    rcases formatUSD_cons (intlRound (hundredOzLow q.ask)) with ⟨tail, h | h⟩
    · rw [List.nil_append, h]; exact Or.inr (Or.inl rfl)
    · rw [List.nil_append, h]; exact Or.inr (Or.inr rfl)

/-- C10 — `resolveToken` returns the fallback phrase exactly when the quote
is missing or has `ask ≤ 0` (over the eight-kind enumeration every kind is
recognized, so the fallback uniquely signals unavailability). -/
theorem resolveToken_fallback_iff (t : PriceTokenType) (pd : Option ProductSpotSummary)
    (config : PriceTokenConfig) :
    resolveToken t pd config = ("current market price").toList
      ↔ pd = none ∨ ∃ q, pd = some q ∧ q.ask ≤ 0 := by
  cases pd with
  | none => exact iff_of_true rfl (Or.inl rfl)
  | some q =>
    constructor
    · intro heq
      by_cases hq : q.ask ≤ 0
      · exact Or.inr ⟨q, rfl, hq⟩
      · exfalso
        have hhead : (resolveToken t (some q) config).head? = some 'c' := by
          rw [heq]; rfl
        rcases resolveToken_valid_head t q config hq with h | h | h <;>
          rw [hhead] at h <;> exact absurd h (by decide)
    · rintro (h | ⟨q', hq', hle⟩)
      · exact absurd h (by simp)
      · rcases Option.some_inj.mp hq' with rfl
        simp [resolveToken, if_pos hle]

/-! ## C7: the 100 oz bar range token -/

/-- `intlRound` of a nonnegative value is nonnegative. -/
theorem intlRound_nonneg {v : ℚ} (hv : 0 ≤ v) : 0 ≤ intlRound v := by
  unfold intlRound
  rw [if_neg (not_lt.mpr hv)]
  apply Int.floor_nonneg.mpr
  linarith

/-- `replace("$", "")` on a string starting with `$` strips exactly that
first dollar sign. -/
theorem replaceFirst_dollar (l : List Char) :
    replaceFirst ['$'] [] ('$' :: l) = l := by
  unfold replaceFirst
  rw [if_pos (by simp [List.isPrefixOf])]
  simp

/-- `formatPrice` with the empty prefix on a nonnegative value: a `$`
followed by the grouped digits. -/
theorem formatPrice_nonneg_eq (v : ℚ) (hv : 0 ≤ v) :
    formatPrice v [] = '$' :: groupedDigits (intlRound v).natAbs := by
  unfold formatPrice formatUSD
  rw [List.nil_append, if_neg (not_lt.mpr (intlRound_nonneg hv))]

/-- C7 (amended) — for `ask > 0`, `HUNDRED_OZ_BAR_RANGE` resolves to
`round(estimatedUnitSpot·100·1.02, 100)` and
`round(estimatedUnitSpot·100·1.04, 100)` joined by an en-dash, where the
first value keeps its `$` currency symbol and only the second has the `$`
stripped (by a first-occurrence `replace`). -/
theorem hundredOz_range_amended (q : ProductSpotSummary) (hq : 0 < q.ask)
    (config : PriceTokenConfig) :
    resolveToken .HUNDRED_OZ_BAR_RANGE (some q) config
      = formatPrice (roundToNearest (estimatedSpotPerOz q.ask * 100 * 1.02) 100) []
        ++ '–' :: replaceFirst ['$'] []
            (formatPrice (roundToNearest (estimatedSpotPerOz q.ask * 100 * 1.04) 100) [])
    ∧ (formatPrice (roundToNearest (estimatedSpotPerOz q.ask * 100 * 1.02) 100) []).head?
        = some '$'
    ∧ ∀ ch ∈ replaceFirst ['$'] []
        (formatPrice (roundToNearest (estimatedSpotPerOz q.ask * 100 * 1.04) 100) []),
        ch ≠ '$' := by
  have hspot : 0 ≤ estimatedSpotPerOz q.ask := by
    unfold estimatedSpotPerOz
    positivity
  have hlow : 0 ≤ roundToNearest (estimatedSpotPerOz q.ask * 100 * 1.02) 100 :=
    roundToNearest_nonneg (by norm_num)
      (mul_nonneg (mul_nonneg hspot (by norm_num)) (by norm_num))
  have hhigh : 0 ≤ roundToNearest (estimatedSpotPerOz q.ask * 100 * 1.04) 100 :=
    roundToNearest_nonneg (by norm_num)
      (mul_nonneg (mul_nonneg hspot (by norm_num)) (by norm_num))
  refine ⟨?_, ?_, ?_⟩
  · simp only [resolveToken, if_neg (not_le.mpr hq), hundredOzLow, hundredOzHigh]
  · rw [formatPrice_nonneg_eq _ hlow]
    rfl
  · rw [formatPrice_nonneg_eq _ hhigh, replaceFirst_dollar]
    intro ch hch
    exact (numChar_ne ch (groupedDigits_chars _ ch hch)).2.2

/-- Witness for the amended C7 at `ask = 30300` (derived spot exactly 30). -/
theorem hundredOz_range_amended_witness :
    resolveToken .HUNDRED_OZ_BAR_RANGE (some ⟨30300⟩) {}
      = formatPrice (roundToNearest (estimatedSpotPerOz 30300 * 100 * 1.02) 100) []
        ++ '–' :: replaceFirst ['$'] []
            (formatPrice (roundToNearest (estimatedSpotPerOz 30300 * 100 * 1.04) 100) [])
    ∧ (formatPrice (roundToNearest (estimatedSpotPerOz 30300 * 100 * 1.02) 100) []).head?
        = some '$'
    ∧ ∀ ch ∈ replaceFirst ['$'] []
        (formatPrice (roundToNearest (estimatedSpotPerOz 30300 * 100 * 1.04) 100) []),
        ch ≠ '$' :=
  hundredOz_range_amended ⟨30300⟩ (by norm_num) {}

/-- Counterexample to C7 as stated: at `ask = 30300` with the defaults the
resolved value is `$3,100–3,100` — the first value carries a `$` currency
symbol, contradicting "no currency symbol on either value". -/
theorem hundredOz_range_counterexample :
    resolveToken .HUNDRED_OZ_BAR_RANGE (some ⟨30300⟩) {} = '$' :: ("3,100–3,100").toList := by
  have hlo : hundredOzLow (30300 : ℚ) = 3100 := by
    norm_num [hundredOzLow, roundToNearest, estimatedSpotPerOz]
  have hhi : hundredOzHigh (30300 : ℚ) = 3100 := by
    norm_num [hundredOzHigh, roundToNearest, estimatedSpotPerOz]
  have h2 : intlRound (3100 : ℚ) = 3100 := by norm_num [intlRound]
  simp only [resolveToken, show ¬((⟨30300⟩ : ProductSpotSummary).ask ≤ 0) by norm_num,
    if_neg, hlo, hhi, formatPrice, h2]
  decide

/-! ## The scanner: C1 and C9 -/

/-- Every kind occurs in the alternation. -/
theorem mem_tokenList (t : PriceTokenType) : t ∈ tokenList := by
  cases t <;> decide

theorem tokenSource_two_le : ∀ t ∈ tokenList, 2 ≤ (tokenSource t).length := by decide

theorem tokenSource_head : ∀ t ∈ tokenList,
    (tokenSource t)[0]? = some '\x7b' ∧ (tokenSource t)[1]? = some '\x7b' := by decide

theorem tokenSource_no_inner : ∀ t ∈ tokenList, ∀ i ∈ List.range (tokenSource t).length,
    1 ≤ i → ((tokenSource t)[i]? ≠ some '\x7b'
      ∨ (i + 1 < (tokenSource t).length ∧ (tokenSource t)[i + 1]? ≠ some '\x7b')) := by decide

theorem tokenSource_prefix_inj : ∀ t ∈ tokenList, ∀ t' ∈ tokenList,
    (tokenSource t).isPrefixOf (tokenSource t') = true → t = t' := by decide

theorem matchTokenAt_prefix {s : List Char} {t : PriceTokenType}
    (h : matchTokenAt s = some t) : tokenSource t <+: s := by
  have h' : tokenList.find? (fun u => (tokenSource u).isPrefixOf s) = some t := h
  have hp := List.find?_some h'
  simp only at hp
  exact List.isPrefixOf_iff_prefix.mp hp

theorem matchTokenAt_mem {s : List Char} {t : PriceTokenType}
    (h : matchTokenAt s = some t) : t ∈ tokenList := by
  have h' : tokenList.find? (fun u => (tokenSource u).isPrefixOf s) = some t := h
  exact List.mem_of_find?_eq_some h' 

theorem matchTokenAt_iff (s : List Char) (t : PriceTokenType) :
    matchTokenAt s = some t ↔ tokenSource t <+: s := by
  constructor
  · exact matchTokenAt_prefix
  · intro hpre
    cases e : matchTokenAt s with
    | none =>
      have e' : tokenList.find? (fun u => (tokenSource u).isPrefixOf s) = none := e
      exact absurd (List.isPrefixOf_iff_prefix.mpr hpre)
        (by simpa using List.find?_eq_none.mp e' t (mem_tokenList t))
    | some t' =>
      have hpre' : tokenSource t' <+: s := matchTokenAt_prefix e
      rcases List.prefix_or_prefix_of_prefix hpre hpre' with h | h
      · have heq : t = t' := tokenSource_prefix_inj t (mem_tokenList t) t' (matchTokenAt_mem e)
          (List.isPrefixOf_iff_prefix.mpr h)
        rw [heq]
      · have heq : t' = t := tokenSource_prefix_inj t' (matchTokenAt_mem e) t (mem_tokenList t)
          (List.isPrefixOf_iff_prefix.mpr h)
        rw [heq]

theorem prefix_getElem? {v w : List Char} (h : v <+: w) {i : Nat} (hi : i < v.length) :
    w[i]? = v[i]? := by
  rcases h with ⟨u, rfl⟩
  rw [List.getElem?_append]
  rw [if_pos hi]

theorem noInnerMatch {s : List Char} {t : PriceTokenType} (h : matchTokenAt s = some t)
    {i : Nat} (h1 : 1 ≤ i) (h2 : i < (tokenSource t).length) :
    matchTokenAt (s.drop i) = none := by
  cases e : matchTokenAt (s.drop i) with
  | none => rfl
  | some t' =>
    exfalso
    have hpre : tokenSource t <+: s := matchTokenAt_prefix h
    have hpre' : tokenSource t' <+: s.drop i := matchTokenAt_prefix e
    have hh := tokenSource_head t' (matchTokenAt_mem e)
    have h2le := tokenSource_two_le t' (matchTokenAt_mem e)
    -- the two leading braces of t' give braces of s at i and i+1
    have hs0 : s[i]? = some '\x7b' := by
      have := prefix_getElem? hpre' (show 0 < (tokenSource t').length by omega)
      rw [List.getElem?_drop] at this
      rw [Nat.add_zero] at this
      rw [this, hh.1]
    have hs1 : s[i + 1]? = some '\x7b' := by
      have := prefix_getElem? hpre' (show 1 < (tokenSource t').length by omega)
      rw [List.getElem?_drop] at this
      rw [this, hh.2]
    -- but inside tokenSource t no such pair exists
    have hmem : i ∈ List.range (tokenSource t).length := List.mem_range.mpr h2
    rcases tokenSource_no_inner t (matchTokenAt_mem h) i hmem h1 with hc | ⟨hlt, hc⟩
    · exact hc ((prefix_getElem? hpre h2).symm.trans hs0)
    · exact hc ((prefix_getElem? hpre hlt).symm.trans hs1)

theorem flatten_map_singleton (l : List Char) : (l.map fun c => [c]).flatten = l := by
  induction l with
  | nil => rfl
  | cons c rest ih => simp [ih]

theorem matchTokenAt_drop_eq {c : Char} {rest : List Char} {t : PriceTokenType} {u : List Char}
    (hu : tokenSource t ++ u = c :: rest) :
    rest.drop ((tokenSource t).length - 1) = u := by
  have h2 : 2 ≤ (tokenSource t).length := by
    cases t <;> simp [tokenSource]
  have hfull : (c :: rest).drop (tokenSource t).length = u := by
    rw [← hu, List.drop_left]
  cases hL : (tokenSource t).length with
  | zero => omega
  | succ m =>
    rw [hL] at hfull
    rw [List.drop_succ_cons] at hfull
    simpa using hfull

theorem replaceTokensAux_eq_tokenizeAux (pd : Option ProductSpotSummary)
    (config : PriceTokenConfig) :
    ∀ fuel s, replaceTokensAux pd config fuel s
      = ((tokenizeAux fuel s).map (segRender pd config)).flatten
  | 0, s => by
    simp only [replaceTokensAux, tokenizeAux, List.map_map]
    rw [show (segRender pd config ∘ Seg.lit) = fun c => [c] from rfl,
      flatten_map_singleton]
  | _ + 1, [] => rfl
  | fuel + 1, c :: rest => by
    cases e : matchTokenAt (c :: rest) with
    | some t =>
      simp only [replaceTokensAux, tokenizeAux, e, List.map_cons, List.flatten_cons, segRender]
      rw [replaceTokensAux_eq_tokenizeAux pd config fuel]
    | none =>
      simp only [replaceTokensAux, tokenizeAux, e, List.map_cons, List.flatten_cons, segRender]
      rw [replaceTokensAux_eq_tokenizeAux pd config fuel]
      rfl

theorem tokenizeAux_source :
    ∀ fuel s, ((tokenizeAux fuel s).map segSource).flatten = s
  | 0, s => by
    simp only [tokenizeAux, List.map_map]
    rw [show (segSource ∘ Seg.lit) = fun c => [c] from rfl, flatten_map_singleton]
  | _ + 1, [] => rfl
  | fuel + 1, c :: rest => by
    cases e : matchTokenAt (c :: rest) with
    | some t =>
      obtain ⟨u, hu⟩ := matchTokenAt_prefix e
      simp only [tokenizeAux, e, List.map_cons, List.flatten_cons, segSource]
      rw [matchTokenAt_drop_eq hu, tokenizeAux_source fuel u, hu]
    | none =>
      simp only [tokenizeAux, e, List.map_cons, List.flatten_cons, segSource]
      rw [tokenizeAux_source fuel rest]
      rfl

theorem findTokensAux_eq_filterMap :
    ∀ fuel s, findTokensAux fuel s = (tokenizeAux fuel s).filterMap segToken
  | 0, s => by
    simp only [findTokensAux, tokenizeAux]
    rw [List.filterMap_map]
    rw [show (segToken ∘ Seg.lit) = fun _ => none from rfl]
    simp [List.filterMap_eq_nil_iff]
  | _ + 1, [] => rfl
  | fuel + 1, c :: rest => by
    cases e : matchTokenAt (c :: rest) with
    | some t =>
      simp only [findTokensAux, tokenizeAux, e]
      rw [List.filterMap_cons_some (show segToken (Seg.tok t) = some t from rfl)]
      rw [findTokensAux_eq_filterMap fuel]
    | none =>
      simp only [findTokensAux, tokenizeAux, e]
      rw [List.filterMap_cons_none (show segToken (Seg.lit c) = none from rfl)]
      exact findTokensAux_eq_filterMap fuel rest

/-- C1 — `replaceTokens` equals the render of the scanner's decomposition of
the text: every well-formed token occurrence is replaced by its
`resolveToken` value, all literal (non-token) characters are kept verbatim
in their original left-to-right order (the decomposition re-concatenates to
exactly the input), and text without any well-formed occurrence — including
text with an unrecognized token such as `\x7b\x7bNOT_A_TOKEN\x7d\x7d` — is
returned unchanged, braces intact. -/
theorem replaceTokens_substitution (s : List Char) (pd : Option ProductSpotSummary)
    (config : PriceTokenConfig) :
    replaceTokens s pd config = ((tokenize s).map (segRender pd config)).flatten
    ∧ ((tokenize s).map segSource).flatten = s
    ∧ (findTokens s = [] → replaceTokens s pd config = s) := by
  refine ⟨replaceTokensAux_eq_tokenizeAux pd config s.length s,
    tokenizeAux_source s.length s, ?_⟩
  intro hnone
  rw [replaceTokens, replaceTokensAux_eq_tokenizeAux pd config s.length s]
  have hall : ∀ seg ∈ tokenize s, segToken seg = none := by
    rw [findTokens, findTokensAux_eq_filterMap s.length s] at hnone
    exact List.filterMap_eq_nil_iff.mp hnone
  have hcongr : ∀ seg ∈ tokenize s, segRender pd config seg = segSource seg := by
    intro seg hseg
    cases seg with
    | lit c => rfl
    | tok t => exact absurd (hall _ hseg) (by simp [segToken])
  change (List.map (segRender pd config) (tokenize s)).flatten = s
  rw [List.map_congr_left hcongr]
  exact tokenizeAux_source s.length s

/-- Witness for C1: an unrecognized token is left untouched. -/
theorem replaceTokens_substitution_witness :
    replaceTokens (("\x7b\x7bNOT_A_TOKEN\x7d\x7d").toList) none {}
      = ("\x7b\x7bNOT_A_TOKEN\x7d\x7d").toList :=
  (replaceTokens_substitution (("\x7b\x7bNOT_A_TOKEN\x7d\x7d").toList) none {}).2.2 (by decide)

theorem findTokensAux_allScan :
    ∀ fuel s, s.length ≤ fuel →
      findTokensAux fuel s
        = (List.range s.length).filterMap fun i => matchTokenAt (s.drop i)
  | 0, s, h => by
    rw [List.eq_nil_of_length_eq_zero (Nat.le_zero.mp h)]
    rfl
  | _ + 1, [], _ => rfl
  | fuel + 1, c :: rest, h => by
    have hrest : rest.length ≤ fuel := by
      simpa using Nat.succ_le_succ_iff.mp (by simpa using h)
    cases e : matchTokenAt (c :: rest) with
    | none =>
      simp only [findTokensAux, e]
      rw [findTokensAux_allScan fuel rest hrest]
      rw [List.length_cons, List.range_succ_eq_map]
      rw [List.filterMap_cons_none (by simpa [List.drop_zero] using e)]
      rw [List.filterMap_map]
      congr 1
    | some t =>
      obtain ⟨u, hu⟩ := matchTokenAt_prefix e
      have hL2 : 2 ≤ (tokenSource t).length := tokenSource_two_le t (matchTokenAt_mem e)
      have hlen : (c :: rest).length = (tokenSource t).length + u.length := by
        rw [← hu, List.length_append]
      have hulen : u.length ≤ fuel := by
        have := congrArg List.length hu
        simp [List.length_append] at this
        omega
      simp only [findTokensAux, e]
      rw [matchTokenAt_drop_eq hu, findTokensAux_allScan fuel u hulen]
      rw [hlen, List.range_add, List.filterMap_append]
      -- first block: positions inside the token occurrence
      have hfirst : (List.range (tokenSource t).length).filterMap
          (fun i => matchTokenAt ((c :: rest).drop i)) = [t] := by
        cases hL : (tokenSource t).length with
        | zero => omega
        | succ m =>
          rw [List.range_succ_eq_map]
          rw [List.filterMap_cons_some (by simpa [List.drop_zero] using e)]
          rw [List.filterMap_map]
          have : List.filterMap ((fun i => matchTokenAt ((c :: rest).drop i)) ∘ Nat.succ)
              (List.range m) = [] := by
            rw [List.filterMap_eq_nil_iff]
            intro i hi
            have him : i + 1 < (tokenSource t).length := by
              rw [hL]
              exact Nat.succ_lt_succ (List.mem_range.mp hi)
            exact noInnerMatch e (Nat.succ_le_succ (Nat.zero_le i)) him
          rw [this]
      rw [hfirst]
      -- second block: positions after the occurrence
      congr 1
      rw [List.filterMap_map]
      congr 1
      funext i
      have : (c :: rest).drop ((tokenSource t).length + i) = u.drop i := by
        rw [← hu, List.drop_append]
      simp [Function.comp, this]

theorem hasTokens_iff_exists (s : List Char) :
    hasTokens s = true ↔ ∃ i ∈ List.range s.length, (matchTokenAt (s.drop i)).isSome = true := by
  induction s with
  | nil => simp [hasTokens]
  | cons c rest ih =>
    rw [hasTokens]
    rw [Bool.or_eq_true, ih]
    rw [List.length_cons, List.range_succ_eq_map]
    constructor
    · rintro (h | ⟨i, hi, hsome⟩)
      · exact ⟨0, List.mem_cons_self _ _, by simpa [List.drop_zero] using h⟩
      · exact ⟨i + 1, List.mem_cons_of_mem _ (List.mem_map_of_mem Nat.succ hi),
          by simpa [List.drop_succ_cons] using hsome⟩
    · rintro ⟨i, hi, hsome⟩
      rcases List.mem_cons.mp hi with rfl | hi
      · exact Or.inl (by simpa [List.drop_zero] using hsome)
      · obtain ⟨j, hj, rfl⟩ := List.mem_map.mp hi
        exact Or.inr ⟨j, hj, by simpa [List.drop_succ_cons] using hsome⟩

/-- C9 — `findTokens` returns exactly the kinds whose well-formed
double-brace occurrences appear in the text, duplicates included, ordered
by first character position (the filterMap over all positions, where
`matchTokenAt (s.drop i) = some t` characterises a well-formed occurrence
of `t` at position `i`, second conjunct); and `hasTokens` is true exactly
when that sequence is non-empty. -/
theorem findTokens_spec (s : List Char) :
    findTokens s = (List.range s.length).filterMap (fun i => matchTokenAt (s.drop i))
    ∧ (∀ i : Nat, ∀ t : PriceTokenType,
        matchTokenAt (s.drop i) = some t ↔ tokenSource t <+: s.drop i)
    ∧ (hasTokens s = true ↔ findTokens s ≠ []) := by
  have h1 : findTokens s = (List.range s.length).filterMap fun i => matchTokenAt (s.drop i) :=
    findTokensAux_allScan s.length s le_rfl
  refine ⟨h1, fun i t => matchTokenAt_iff _ _, ?_⟩
  rw [h1, hasTokens_iff_exists]
  constructor
  · rintro ⟨i, hi, hsome⟩ hnil
    rw [List.filterMap_eq_nil_iff] at hnil
    rw [hnil i hi] at hsome
    simp at hsome
  · intro hne
    by_contra hnot
    push_neg at hnot
    apply hne
    rw [List.filterMap_eq_nil_iff]
    intro i hi
    have := hnot i hi
    simpa [Option.isSome_iff_ne_none] using this
